import Mathlib

/-!
Verification development for the SkyBlock Profile Extractor
(`extract_profile.py`, CLI variant).

The Python program is shallowly embedded: network calls are abstracted
into explicit response values handed to each function, the filesystem is
modelled as the list of (path, content) pairs a run writes, terminal
output is modelled as the list of warning messages a run emits, and the
JSON values exchanged with the upstream API are modelled by an inductive
type `Jn` whose numeric leaves are integers.  Python strings that the
code manipulates character by character are modelled as `List Char`;
strings that are only concatenated and compared are Lean `String`s.
-/

namespace SBE

/-! ## JSON values

`Jn` models the JSON documents returned by the upstream API and written
by `save_profile_data` via `json.dump(response, f, indent=2,
ensure_ascii=False)`.  Numeric leaves are modelled as integers; object
members are kept in document order, as Python dicts preserve insertion
order both when parsing and when serializing. -/

inductive Jn where
  | null : Jn
  | bool : Bool → Jn
  | num : Int → Jn
  | str : List Char → Jn
  | arr : List Jn → Jn
  | obj : List (List Char × Jn) → Jn

/-- The decimal digit character for `n < 10` (`'0'` through `'9'`). -/
def digitChar (n : Nat) : Char := Char.ofNat (48 + n)

/-- Lowercase hex digit character, as produced by Python `'%04x'`. -/
def hexDigitChar (n : Nat) : Char :=
  if n < 10 then Char.ofNat (48 + n) else Char.ofNat (87 + n)

/-- Decimal digits of a natural number, most significant first
(the digits of Python `repr(n)`). -/
def natToChars (n : Nat) : List Char :=
  if n < 10 then [digitChar n]
  else natToChars (n / 10) ++ [digitChar (n % 10)]
termination_by n
decreasing_by exact Nat.div_lt_self (by omega) (by omega)

/-- Characters of Python `repr(i)` for an integer. -/
def intToChars (i : Int) : List Char :=
  if i < 0 then '-' :: natToChars i.natAbs else natToChars i.toNat

/-- How `json.dump(..., ensure_ascii=False)` escapes one character of a
string: backslash, quote and the named control characters get two-byte
escapes, the remaining control characters below U+0020 get a `\u00XX`
escape, everything else is emitted verbatim. -/
def escapeChar (c : Char) : List Char :=
  if c = '\\' then ['\\', '\\']
  else if c = '"' then ['\\', '"']
  else if c = '\n' then ['\\', 'n']
  else if c = '\t' then ['\\', 't']
  else if c = '\r' then ['\\', 'r']
  else if c = '\x08' then ['\\', 'b']
  else if c = '\x0c' then ['\\', 'f']
  else if c.toNat < 32 then
    ['\\', 'u', '0', '0', hexDigitChar (c.toNat / 16), hexDigitChar (c.toNat % 16)]
  else [c]

/-- Escaped body of a JSON string. -/
def escapeStr (s : List Char) : List Char := (s.map escapeChar).flatten

/-- A serialized JSON string, quotes included. -/
def printStr (s : List Char) : List Char := '"' :: (escapeStr s ++ ['"'])

/-- The indentation prefix at nesting level `lvl` for `indent=2`. -/
def jIndent (lvl : Nat) : List Char := List.replicate (2 * lvl) ' '

mutual

/-- Characters of `json.dumps(v, indent=2, ensure_ascii=False)` when `v`
sits at nesting level `lvl`.  With `indent=2` Python separates container
items by `",\n"`, keys from values by `": "`, and prints empty
containers as `[]` and `\x7b\x7d` without inner newlines. -/
def printVal (lvl : Nat) : Jn → List Char
  | .null => "null".toList
  | .bool true => "true".toList
  | .bool false => "false".toList
  | .num i => intToChars i
  | .str s => printStr s
  | .arr [] => ['[', ']']
  | .arr (x :: xs) =>
      '[' :: '\n' :: (printItems (lvl + 1) x xs ++ '\n' :: (jIndent lvl ++ [']']))
  | .obj [] => ['\x7b', '\x7d']
  | .obj (kv :: kvs) =>
      '\x7b' :: '\n' :: (printMembers (lvl + 1) kv kvs ++ '\n' :: (jIndent lvl ++ ['\x7d']))
termination_by v => sizeOf v
decreasing_by all_goals simp_wf

/-- The comma-and-newline separated items of a non-empty array. -/
def printItems (lvl : Nat) (x : Jn) (xs : List Jn) : List Char :=
  match xs with
  | [] => jIndent lvl ++ printVal lvl x
  | y :: ys => jIndent lvl ++ printVal lvl x ++ ',' :: '\n' :: printItems lvl y ys
termination_by 1 + sizeOf x + sizeOf xs
decreasing_by all_goals (simp_wf <;> omega)

/-- The comma-and-newline separated members of a non-empty object. -/
def printMembers (lvl : Nat) (kv : List Char × Jn) (kvs : List (List Char × Jn)) : List Char :=
  match kv, kvs with
  | (k, v), [] => jIndent lvl ++ printStr k ++ ':' :: ' ' :: printVal lvl v
  | (k, v), k2 :: ks =>
      jIndent lvl ++ printStr k ++ ':' :: ' ' :: printVal lvl v ++
        ',' :: '\n' :: printMembers lvl k2 ks
termination_by 1 + sizeOf kv + sizeOf kvs
decreasing_by all_goals (simp_wf <;> omega)

end

/-- The full serialized document, as written to the output file. -/
def jsonDumps (v : Jn) : List Char := printVal 0 v

/-! ## JSON parsing

A recursive-descent model of `json.loads`, restricted to the documents
`jsonDumps` can produce (integer numerals; no float or exponent forms).
Recursion is bounded by an explicit fuel; `jsonLoads` supplies a fuel
large enough for any input, mirroring the unbounded recursion of the
Python parser. -/

/-- JSON whitespace skipped by the parser (the characters of Python
`json`'s whitespace set). -/
def isWsChar (c : Char) : Bool := c = ' ' || c = '\t' || c = '\n' || c = '\r'

/-- Decimal digit test. -/
def isDigitChar (c : Char) : Bool := 48 ≤ c.toNat && c.toNat ≤ 57

/-- Drop leading JSON whitespace. -/
def skipWs : List Char → List Char
  | [] => []
  | c :: cs => if isWsChar c then skipWs cs else c :: cs

/-- Value of a hex digit character, either case. -/
def hexVal (c : Char) : Option Nat :=
  if 48 ≤ c.toNat ∧ c.toNat ≤ 57 then some (c.toNat - 48)
  else if 97 ≤ c.toNat ∧ c.toNat ≤ 102 then some (c.toNat - 87)
  else if 65 ≤ c.toNat ∧ c.toNat ≤ 70 then some (c.toNat - 55)
  else none

/-- Unescape a single-character JSON escape. -/
def unescapeChar (e : Char) : Option Char :=
  if e = '"' then some '"'
  else if e = '\\' then some '\\'
  else if e = '/' then some '/'
  else if e = 'b' then some '\x08'
  else if e = 'f' then some '\x0c'
  else if e = 'n' then some '\n'
  else if e = 'r' then some '\r'
  else if e = 't' then some '\t'
  else none

mutual

/-- Parse the body of a JSON string after the opening quote, returning
the decoded characters and the input after the closing quote. -/
def parseStrBody : List Char → Option (List Char × List Char)
  | [] => none
  | c :: cs =>
    if c = '"' then some ([], cs)
    else if c = '\\' then parseEsc cs
    else (parseStrBody cs).map (fun r => (c :: r.1, r.2))
termination_by cs => cs.length
decreasing_by all_goals simp_arith

/-- Parse what follows a backslash inside a JSON string. -/
def parseEsc : List Char → Option (List Char × List Char)
  | [] => none
  | e :: cs2 =>
    if e = 'u' then parseHexQuad cs2
    else
      (unescapeChar e).bind (fun u => (parseStrBody cs2).map (fun r => (u :: r.1, r.2)))
termination_by cs => cs.length
decreasing_by all_goals simp_arith

/-- Parse the four hex digits of a `\uXXXX` escape. -/
def parseHexQuad : List Char → Option (List Char × List Char)
  | h1 :: h2 :: h3 :: h4 :: cs3 =>
    (hexVal h1).bind (fun a =>
      (hexVal h2).bind (fun b =>
        (hexVal h3).bind (fun c4 =>
          (hexVal h4).bind (fun d =>
            (parseStrBody cs3).map
              (fun r => (Char.ofNat (4096 * a + 256 * b + 16 * c4 + d) :: r.1, r.2))))))
  | _ => none
termination_by cs => cs.length
decreasing_by all_goals simp_arith

end

/-- Accumulate a run of decimal digits. -/
def parseDigits (acc : Nat) : List Char → Nat × List Char
  | [] => (acc, [])
  | c :: cs =>
    if isDigitChar c then parseDigits (10 * acc + (c.toNat - 48)) cs else (acc, c :: cs)

/-- Parse a non-empty run of decimal digits. -/
def parseNat : List Char → Option (Nat × List Char)
  | [] => none
  | c :: cs =>
    if isDigitChar c then some (parseDigits (c.toNat - 48) cs) else none

/-- Parse an optionally negated integer numeral. -/
def parseIntTok : List Char → Option (Int × List Char)
  | [] => none
  | c :: cs =>
    if c = '-' then (parseNat cs).map (fun r => (-(r.1 : Int), r.2))
    else (parseNat (c :: cs)).map (fun r => ((r.1 : Int), r.2))

/-- Require a fixed run of characters, returning the remainder. -/
def expectChars : List Char → List Char → Option (List Char)
  | [], cs => some cs
  | _ :: _, [] => none
  | t :: ts, c :: cs => if c = t then expectChars ts cs else none

mutual

/-- Parse one JSON value, whitespace-insensitive, with explicit fuel. -/
def parseVal : Nat → List Char → Option (Jn × List Char)
  | 0, _ => none
  | f + 1, cs =>
    match skipWs cs with
    | [] => none
    | c :: rest =>
      if c = 'n' then (expectChars ['u', 'l', 'l'] rest).map (fun r => (Jn.null, r))
      else if c = 't' then (expectChars ['r', 'u', 'e'] rest).map (fun r => (Jn.bool true, r))
      else if c = 'f' then
        (expectChars ['a', 'l', 's', 'e'] rest).map (fun r => (Jn.bool false, r))
      else if c = '"' then
        (parseStrBody rest).map (fun r => (.str r.1, r.2))
      else if c = '[' then
        parseArr f rest
      else if c = '\x7b' then
        parseObj f rest
      else if c = '-' ∨ isDigitChar c then
        (parseIntTok (c :: rest)).map (fun r => (.num r.1, r.2))
      else none

/-- Parse the remainder of an array after `[`. -/
def parseArr : Nat → List Char → Option (Jn × List Char)
  | 0, _ => none
  | f + 1, cs =>
    match skipWs cs with
    | [] => none
    | c :: r =>
      if c = ']' then some (.arr [], r)
      else
        match parseVal f (c :: r) with
        | some (v, rest) =>
          match parseArrTail f rest with
          | some (vs, r2) => some (.arr (v :: vs), r2)
          | none => none
        | none => none

/-- Parse `, value`* `]` after an array element. -/
def parseArrTail : Nat → List Char → Option (List Jn × List Char)
  | 0, _ => none
  | f + 1, cs =>
    match skipWs cs with
    | [] => none
    | c :: r =>
      if c = ',' then
        match parseVal f r with
        | some (v, rest) =>
          match parseArrTail f rest with
          | some (vs, r2) => some (v :: vs, r2)
          | none => none
        | none => none
      else if c = ']' then some ([], r)
      else none

/-- Parse one `"key": value` member. -/
def parseMember : Nat → List Char → Option ((List Char × Jn) × List Char)
  | 0, _ => none
  | f + 1, cs =>
    match skipWs cs with
    | [] => none
    | c :: r =>
      if c = '"' then
        match parseStrBody r with
        | some (k, r2) =>
          match skipWs r2 with
          | [] => none
          | c2 :: r3 =>
            if c2 = ':' then
              match parseVal f r3 with
              | some (v, r4) => some ((k, v), r4)
              | none => none
            else none
        | none => none
      else none

/-- Parse the remainder of an object after the opening brace. -/
def parseObj : Nat → List Char → Option (Jn × List Char)
  | 0, _ => none
  | f + 1, cs =>
    match skipWs cs with
    | [] => none
    | c :: r =>
      if c = '\x7d' then some (.obj [], r)
      else
        match parseMember f (c :: r) with
        | some (kv, rest) =>
          match parseObjTail f rest with
          | some (kvs, r2) => some (.obj (kv :: kvs), r2)
          | none => none
        | none => none

/-- Parse `, member`* and the closing brace after an object member. -/
def parseObjTail : Nat → List Char → Option (List (List Char × Jn) × List Char)
  | 0, _ => none
  | f + 1, cs =>
    match skipWs cs with
    | [] => none
    | c :: r =>
      if c = ',' then
        match parseMember f r with
        | some (kv, rest) =>
          match parseObjTail f rest with
          | some (kvs, r2) => some (kv :: kvs, r2)
          | none => none
        | none => none
      else if c = '\x7d' then some ([], r)
      else none

end

/-- The model of `json.loads`: parse one document and require that only
whitespace follows it. -/
def jsonLoads (cs : List Char) : Option Jn :=
  match parseVal (cs.length + 1) cs with
  | some (v, rest) => if skipWs rest = [] then some v else none
  | none => none

/-! ## The HTTP layer (`make_api_call`)

A network interaction is abstracted into the outcome the `requests`
library would deliver for the endpoint: a parsed JSON payload of the
endpoint's shape, an HTTP error status, or any other failure
(connection error, timeout, malformed body) carrying its message.
The `time.sleep(RATE_LIMIT)` pause has no observable effect in this
model and is omitted. -/

inductive ApiResult (α : Type) where
  | ok : α → ApiResult α
  | httpErr : Nat → ApiResult α
  | netErr : String → ApiResult α

/-- `make_api_call(endpoint, context, ignore_403)`: the endpoint argument
is replaced by the modelled outcome of contacting it.  HTTP errors are
re-raised as `Exception`s with the messages of the source (the numeric
status code is elided from the generic message text; no caller inspects
it); an exception raised inside an `except` clause is not caught by the
later generic `except` of the same `try`, so each message passes
through unchanged. -/
def make_api_call (resp : ApiResult α) (context : String) (ignore_403 : Bool) :
    Except String α :=
  match resp with
  | .ok a => .ok a
  | .httpErr code =>
    if ignore_403 ∧ code = 403 then .error "403 Forbidden"
    else if code = 403 then
      .error (context ++ " failed - API access denied (check SkyBlock API settings)")
    else if code = 404 then .error (context ++ " failed - data not found")
    else .error (context ++ " failed - HTTP error")
  | .netErr m => .error (context ++ " failed - " ++ m)

/-- Substring test on character lists, modelling Python `in` on `str`. -/
def containsSub (needle : List Char) : List Char → Bool
  | [] => needle.isEmpty
  | c :: t => needle.isPrefixOf (c :: t) || containsSub needle t

/-! ## Identity resolution (`get_player_uuid`) -/

/-- The JSON body of the `uuid/{username}` endpoint, with the two fields
the code reads.  `uuid = none` models a body without a `uuid` key. -/
structure UuidPayload where
  uuid : Option String
  username : String

/-- `get_player_uuid`: returns the response when it carries a `uuid`
field, `None` on any failure (the raised exceptions are caught, printed
and turned into `None`). -/
def get_player_uuid (resp : ApiResult UuidPayload) : Option UuidPayload :=
  match make_api_call resp "UUID lookup" false with
  | .ok payload => match payload.uuid with
    | some _ => some payload
    | none => none
  | .error _ => none

/-! ## Profile listing (`get_player_profiles`) -/

/-- One profile's entry in the `profiles` mapping of the comprehensive
endpoint, restricted to the fields the code reads plus `last_save`,
which is present in the upstream payload but read by no code path of
this variant.  `.get` defaults are folded in: the fields the code
accesses are modelled as present, with `selected` defaulting to
`false`. -/
structure ProfileData where
  profile_id : List Char
  cute_name : List Char
  selected : Bool
  last_save : Int
deriving DecidableEq

/-- The record `get_player_profiles` appends to `profile_list`. -/
structure ProfileRec where
  profile_id : List Char
  profile_cute_name : List Char
  selected : Bool
deriving DecidableEq

/-- Projection from an upstream profile entry to the emitted record;
the mapping key of `response['profiles'].items()` is ignored by the
code, only the per-profile data is read. -/
def projRec (pd : ProfileData) : ProfileRec :=
  { profile_id := pd.profile_id
    profile_cute_name := pd.cute_name
    selected := pd.selected }

/-- Body of the `profiles/{uuid}` endpoint: `none` models a falsy
response or one without a `profiles` key; the list keeps the insertion
order of the JSON document, which Python dict iteration preserves. -/
structure ProfilesPayload where
  profiles : Option (List (List Char × ProfileData))

/-- The `stats` object of the `stats/{uuid}` endpoint, restricted to the
two fields read; `none` models a response without a `stats` key. -/
structure StatsData where
  profile_id : List Char
  profile_cute_name : List Char
deriving DecidableEq

structure StatsPayload where
  stats : Option StatsData

/-- Result of the Profile Lister: the returned value plus the warning
and error messages printed on the way.  Message texts follow the source
with the quoting of interpolated values elided. -/
structure ListerResult where
  result : Option (List ProfileRec)
  warnings : List String
  errors : List String

/-- The fallback half of `get_player_profiles`: query the stats endpoint
and synthesize a single selected profile, or fail with `None`. -/
def profilesFallback (statsResp : ApiResult StatsPayload) (warns : List String) :
    ListerResult :=
  match make_api_call statsResp "Active profile lookup" false with
  | .ok payload =>
    match payload.stats with
    | some sd =>
      { result := some [{ profile_id := sd.profile_id
                          profile_cute_name := sd.profile_cute_name
                          selected := true }]
        warnings := warns
        errors := [] }
    | none =>
      { result := none
        warnings := warns
        errors := ["Failed to fetch any profiles: No active SkyBlock profile found"] }
  | .error e =>
    { result := none
      warnings := warns
      errors := ["Failed to fetch any profiles: " ++ e] }

/-- `get_player_profiles(uuid, username)`: try the comprehensive
`profiles/{uuid}` endpoint first (with `ignore_403=True`); when it
raises, warn and fall back; when it merely returns no usable `profiles`
mapping, fall back silently; otherwise return the projected records in
upstream order. -/
def get_player_profiles (profResp : ApiResult ProfilesPayload)
    (statsResp : ApiResult StatsPayload) : ListerResult :=
  match make_api_call profResp "Full profile lookup" true with
  | .ok payload =>
    match payload.profiles with
    | some l =>
      if l.isEmpty then profilesFallback statsResp []
      else
        { result := some (l.map (fun pr => projRec pr.2))
          warnings := []
          errors := [] }
    | none => profilesFallback statsResp []
  | .error e =>
    if containsSub "403 Forbidden".toList e.toList then
      profilesFallback statsResp
        ["Could not fetch all profiles (API permissions likely restricted). Falling back to active profile only."]
    else
      profilesFallback statsResp
        ["Could not fetch all profiles: " ++ e ++ ". Falling back to active profile only."]

/-- Stable descending insertion by `last_save`: an element moves past
exactly those later elements with a strictly larger key. -/
def insertByLastSave (x : List Char × ProfileData) :
    List (List Char × ProfileData) → List (List Char × ProfileData)
  | [] => [x]
  | y :: ys =>
    if x.2.last_save < y.2.last_save then y :: insertByLastSave x ys
    else x :: y :: ys

/-- Modelled from the spec: the §4.2 post-condition sort of the Profile
Lister — output sorted by `last_saved` descending, ties keeping
upstream order (a stable sort).  No code of this variant implements it;
the definition exists solely to compare `get_player_profiles` against
the spec's words. -/
def spec_sort_profiles : List (List Char × ProfileData) →
    List (List Char × ProfileData)
  | [] => []
  | x :: xs => insertByLastSave x (spec_sort_profiles xs)

/-! ## Profile selection (`select_profile`) -/

/-- Python `str.lower()` restricted to the ASCII case mapping. -/
def lowerStr (s : List Char) : List Char := s.map Char.toLower

/-- One line of interactive input, or a Ctrl-C during the prompt. -/
inductive UserInput where
  | line : String → UserInput
  | interrupt : UserInput

/-- The interactive prompt loop: strip the line, default to `"1"` when
empty, re-prompt on non-numeric or out-of-range input, return `None` on
interrupt.  Exhausting the input stream models `EOFError`, which the
loop does not catch; the caller then sees no selection either way, so
it is folded into `none`. -/
def interactiveChoose (profiles : List ProfileRec) : List UserInput → Option ProfileRec
  | [] => none
  | .interrupt :: _ => none
  | .line s :: restInputs =>
    let choice := if s.trim = "" then "1" else s.trim
    match choice.toInt? with
    | none => interactiveChoose profiles restInputs
    | some i =>
      if 0 ≤ i - 1 ∧ i - 1 < (profiles.length : Int) then profiles.get? (i - 1).toNat
      else interactiveChoose profiles restInputs

/-- The branch taken when no requested name decides the outcome: in
silent mode the first profile flagged `selected`, else the first
profile; in interactive mode the prompt loop. -/
def defaultSelect (profiles : List ProfileRec) (silent : Bool)
    (inputs : List UserInput) : Option ProfileRec :=
  if silent then
    match profiles.find? (fun p => p.selected) with
    | some p => some p
    | none => profiles.head?
  else interactiveChoose profiles inputs

/-- Truthiness of `requested_profile`: Python treats both `None` and the
empty string as "no profile requested". -/
def requestedGiven : Option (List Char) → Bool
  | none => false
  | some rq => !rq.isEmpty

/-- `select_profile(profiles, requested_profile, silent)` together with
whether the not-found warning was printed.  Interactive input is passed
explicitly.  The empty list returns `None`; a singleton returns its
element before any name matching; a requested name is matched
case-insensitively and returned directly; otherwise a warning is
printed and control falls through to `defaultSelect`. -/
def select_profile (profiles : List ProfileRec) (requested : Option (List Char))
    (silent : Bool) (inputs : List UserInput) : Option ProfileRec × Bool :=
  match profiles with
  | [] => (none, false)
  | [p] => (some p, false)
  | _ :: _ :: _ =>
    if requestedGiven requested then
      match requested with
      | some rq =>
        match profiles.find? (fun p => lowerStr p.profile_cute_name = lowerStr rq) with
        | some p => (some p, false)
        | none => (defaultSelect profiles silent inputs, true)
      | none => (defaultSelect profiles silent inputs, false)
    else (defaultSelect profiles silent inputs, false)

/-! ## Extraction (`extract_profile_data` and `save_profile_data`) -/

def BASE_URL : String := "https://cupcake.shiiyu.moe/api"

structure PlanEntry where
  endpoint : String
  file : String
  descr : String
deriving DecidableEq

/-- The nine inventory categories appended to the plan. -/
def inventory_types : List (String × String) :=
  [ ("inv_contents", "Main Inventory")
  , ("ender_chest_contents", "Ender Chest")
  , ("wardrobe_contents", "Wardrobe")
  , ("personal_vault_contents", "Personal Vault")
  , ("bag_contents", "All Bags")
  , ("fishing_bag", "Fishing Bag")
  , ("potion_bag", "Potion Bag")
  , ("candy_inventory_contents", "Candy Inventory")
  , ("quiver", "Quiver")
  ]

/-- The sixteen data-category entries of the extraction plan, with the
f-string templates expanded. -/
def base_plan (uuid profile_id : String) : List PlanEntry :=
  [ { endpoint := "stats/" ++ uuid ++ "/" ++ profile_id
    , file := "stats.json", descr := "Profile Statistics" }
  , { endpoint := "playerStats/" ++ uuid ++ "/" ++ profile_id
    , file := "player_stats.json", descr := "Player Performance" }
  , { endpoint := "networth/" ++ uuid ++ "/" ++ profile_id
    , file := "networth.json", descr := "Networth Analysis" }
  , { endpoint := "skills/" ++ uuid ++ "/" ++ profile_id
    , file := "skills.json", descr := "Skills & XP" }
  , { endpoint := "dungeons/" ++ uuid ++ "/" ++ profile_id
    , file := "dungeons.json", descr := "Dungeon Progress" }
  , { endpoint := "slayer/" ++ uuid ++ "/" ++ profile_id
    , file := "slayer.json", descr := "Slayer Statistics" }
  , { endpoint := "collections/" ++ uuid ++ "/" ++ profile_id
    , file := "collections.json", descr := "Collection Progress" }
  , { endpoint := "gear/" ++ uuid ++ "/" ++ profile_id
    , file := "gear.json", descr := "Equipment & Gear" }
  , { endpoint := "accessories/" ++ uuid ++ "/" ++ profile_id
    , file := "accessories.json", descr := "Accessories & Talismans" }
  , { endpoint := "pets/" ++ uuid ++ "/" ++ profile_id
    , file := "pets.json", descr := "Pet Collection" }
  , { endpoint := "minions/" ++ uuid ++ "/" ++ profile_id
    , file := "minions.json", descr := "Minion Data" }
  , { endpoint := "bestiary/" ++ uuid ++ "/" ++ profile_id
    , file := "bestiary.json", descr := "Bestiary Progress" }
  , { endpoint := "crimson_isle/" ++ uuid ++ "/" ++ profile_id
    , file := "crimson_isle.json", descr := "Crimson Isle Progress" }
  , { endpoint := "rift/" ++ uuid ++ "/" ++ profile_id
    , file := "rift.json", descr := "Rift Dimension" }
  , { endpoint := "misc/" ++ uuid ++ "/" ++ profile_id
    , file := "misc.json", descr := "Miscellaneous Data" }
  , { endpoint := "garden/" ++ profile_id
    , file := "garden.json", descr := "Garden Progress" }
  ]

/-- The full 25-entry extraction plan: the 16 data categories plus one
entry per inventory type. -/
def extraction_plan (uuid profile_id : String) : List PlanEntry :=
  base_plan uuid profile_id ++
    inventory_types.map (fun inv =>
      { endpoint := "inventory/" ++ uuid ++ "/" ++ profile_id ++ "/" ++ inv.1
      , file := "inventory_" ++ inv.1 ++ ".json"
      , descr := inv.2 })

/-- What one `save_profile_data` call did: whether it returned `True`,
the files it wrote and the warnings it printed. -/
structure SaveResult where
  ok : Bool
  files : List (String × List Char)
  warnings : List String

/-- `save_profile_data(endpoint, output_file, output_dir, description)`:
fetch, then dump the parsed body with `indent=2, ensure_ascii=False`;
any exception becomes a warning and `False`.  The file write itself is
modelled as succeeding (the spec notes its atomicity is an open risk
outside this model). -/
def save_profile_data (fetch : String → ApiResult Jn) (item : PlanEntry)
    (output_dir : String) : SaveResult :=
  match make_api_call (fetch (BASE_URL ++ "/" ++ item.endpoint)) item.descr false with
  | .ok response =>
    { ok := true
      files := [(output_dir ++ "/" ++ item.file, jsonDumps response)]
      warnings := [] }
  | .error e =>
    { ok := false, files := [], warnings := ["Failed to extract " ++ item.descr ++ ": " ++ e] }

/-- Whether the fetch for a plan entry delivers a payload. -/
def fetchOk (fetch : String → ApiResult Jn) (item : PlanEntry) : Bool :=
  match fetch (BASE_URL ++ "/" ++ item.endpoint) with
  | .ok _ => true
  | _ => false

/-- Round an integer quotient of rationals the way Python `round(x)`
does: nearest, ties to even. -/
def roundHalfEven (q : ℚ) : ℤ :=
  if q - ⌊q⌋ < 1/2 then ⌊q⌋
  else if 1/2 < q - ⌊q⌋ then ⌊q⌋ + 1
  else if ⌊q⌋ % 2 = 0 then ⌊q⌋ else ⌊q⌋ + 1

/-- Python `round(x, 1)`. -/
def pythonRound1 (x : ℚ) : ℚ := (roundHalfEven (x * 10) : ℚ) / 10

/-- The dictionary `extract_profile_data` returns, plus the files and
warnings of the run. -/
structure ExtractResult where
  success : Nat
  total : Nat
  success_rate : ℚ
  files : List (String × List Char)
  warnings : List String

/-- `extract_profile_data(uuid, profile_id, output_dir)`: run
`save_profile_data` over the fixed plan in order, counting successes. -/
def extract_profile_data (fetch : String → ApiResult Jn) (uuid profile_id : String)
    (output_dir : String) : ExtractResult :=
  let plan := extraction_plan uuid profile_id
  let outcomes := plan.map (fun item => save_profile_data fetch item output_dir)
  let success_count := (outcomes.filter (fun o => o.ok)).length
  let total_count := plan.length
  { success := success_count
    total := total_count
    success_rate := pythonRound1 (((success_count : ℚ) / (total_count : ℚ)) * 100)
    files := (outcomes.map (fun o => o.files)).flatten
    warnings := (outcomes.map (fun o => o.warnings)).flatten }

/-! ## The entry point (`main`) -/

/-- The outcomes of everything outside the process that one run can
observe, in the order the run consumes them. -/
structure Env where
  prereqOk : Bool
  usernameInput : String
  uuidResp : ApiResult UuidPayload
  profResp : ApiResult ProfilesPayload
  statsResp : ApiResult StatsPayload
  inputs : List UserInput
  dirResult : Option String
  fetch : String → ApiResult Jn
  summaryAck : Bool

structure MainResult where
  exitCode : Nat
  extract : Option ExtractResult

/-- Python truthiness of the username in `main`: `if not username:` is
taken both when no positional argument was given (`None`) and when the
given argument is the empty string. -/
def usernameTruthy : Option String → Bool
  | none => false
  | some u => if u = "" then false else true

/-- `main` for a parsed command line `(username, profile, silent)`:
each `sys.exit(1)` site becomes exit code 1; reaching the end of the
`try` block is exit code 0.  `if not username:` fires on an absent or
empty positional argument alike: in silent mode the run exits 1, else
the prompt's stripped answer is used, itself re-checked for emptiness.
`show_summary`'s trailing `input()` in interactive mode is modelled by
`summaryAck`; its failure propagates to the outer handler and exits 1.
The profile override is a `String` argument whose characters feed
`select_profile`. -/
def main_model (env : Env) (usernameArg : Option String)
    (profileArg : Option String) (silent : Bool) : MainResult :=
  if env.prereqOk = false then { exitCode := 1, extract := none } else
  let usernameOpt : Option String :=
    if usernameTruthy usernameArg then usernameArg
    else if silent then none
    else if env.usernameInput.trim = "" then none else some env.usernameInput.trim
  match usernameOpt with
  | none => { exitCode := 1, extract := none }
  | some _ =>
    match get_player_uuid env.uuidResp with
    | none => { exitCode := 1, extract := none }
    | some pinfo =>
      match (get_player_profiles env.profResp env.statsResp).result with
      | none => { exitCode := 1, extract := none }
      | some profiles =>
        if profiles.isEmpty then { exitCode := 1, extract := none } else
        match (select_profile profiles (profileArg.map String.toList) silent env.inputs).1 with
        | none => { exitCode := 1, extract := none }
        | some selected =>
          match env.dirResult with
          | none => { exitCode := 1, extract := none }
          | some dir =>
            let results :=
              extract_profile_data env.fetch (pinfo.uuid.getD "")
                (String.mk selected.profile_id) dir
            if silent = false ∧ env.summaryAck = false then
              { exitCode := 1, extract := some results }
            else { exitCode := 0, extract := some results }

/-! ## Scaffolding for the serialization round-trip proof

Fuel requirements of the parser on printed documents, the canonical
shapes of the partially consumed inputs, and length bounds relating the
fuel requirement to the printed size. -/

/-- A continuation is numeral-safe when it cannot extend a numeral. -/
def tailSafe : List Char → Bool
  | [] => true
  | c :: _ => !(isDigitChar c)

/-- A prefix the whitespace skipper consumes entirely. -/
def wsOnly (pre : List Char) : Bool := pre.all isWsChar

mutual

/-- Fuel with which `parseVal` certainly parses a printed value. -/
def fuelV : Jn → Nat
  | .null => 1
  | .bool _ => 1
  | .num _ => 1
  | .str _ => 1
  | .arr l => 2 + fuelL l
  | .obj l => 2 + fuelM l
termination_by v => sizeOf v
decreasing_by all_goals simp_wf

/-- Fuel `parseArr` needs below the `parseVal` that called it. -/
def fuelL : List Jn → Nat
  | [] => 0
  | x :: xs => max (fuelV x) (fuelTail xs)
termination_by l => sizeOf l
decreasing_by all_goals (simp_wf <;> omega)

/-- Fuel `parseArrTail` needs for the remaining items. -/
def fuelTail : List Jn → Nat
  | [] => 1
  | y :: ys => 1 + max (fuelV y) (fuelTail ys)
termination_by l => sizeOf l
decreasing_by all_goals (simp_wf <;> omega)

/-- Fuel `parseObj` needs below the `parseVal` that called it. -/
def fuelM : List (List Char × Jn) → Nat
  | [] => 0
  | (_, v) :: kvs => max (1 + fuelV v) (fuelMTail kvs)
termination_by l => sizeOf l
decreasing_by all_goals (simp_wf <;> omega)

/-- Fuel `parseObjTail` needs for the remaining members. -/
def fuelMTail : List (List Char × Jn) → Nat
  | [] => 1
  | (_, v) :: ks => 1 + max (1 + fuelV v) (fuelMTail ks)
termination_by l => sizeOf l
decreasing_by all_goals (simp_wf <;> omega)

end

/-- The input handed to `parseArr` right after the opening bracket of a
printed array whose elements are `l`, with `rest` following the printed
document. -/
def arrInner (lvl : Nat) (l : List Jn) (rest : List Char) : List Char :=
  match l with
  | [] => ']' :: rest
  | x :: xs => '\n' :: (printItems (lvl + 1) x xs ++ '\n' :: (jIndent lvl ++ ']' :: rest))

/-- The input handed to `parseArrTail` after one printed element, when
the elements still to come are `xs`. -/
def tailInner (lvl : Nat) (xs : List Jn) (rest : List Char) : List Char :=
  match xs with
  | [] => '\n' :: (jIndent lvl ++ ']' :: rest)
  | y :: ys =>
      ',' :: '\n' :: (jIndent (lvl + 1) ++ (printVal (lvl + 1) y ++ tailInner lvl ys rest))

/-- The input handed to `parseObj` right after the opening brace. -/
def objInner (lvl : Nat) (kvs : List (List Char × Jn)) (rest : List Char) : List Char :=
  match kvs with
  | [] => '\x7d' :: rest
  | kv :: ks => '\n' :: (printMembers (lvl + 1) kv ks ++ '\n' :: (jIndent lvl ++ '\x7d' :: rest))

/-- The input handed to `parseObjTail` after one printed member. -/
def objTailInner (lvl : Nat) (ks : List (List Char × Jn)) (rest : List Char) : List Char :=
  match ks with
  | [] => '\n' :: (jIndent lvl ++ '\x7d' :: rest)
  | kv :: ks2 =>
      ',' :: '\n' :: (jIndent (lvl + 1) ++
        (printStr kv.1 ++ ':' :: ' ' :: (printVal (lvl + 1) kv.2 ++ objTailInner lvl ks2 rest)))

/-- A lower bound on the printed size of the items after the first. -/
def itemsLen (lvl : Nat) : List Jn → Nat
  | [] => 0
  | y :: ys => 2 + (printVal lvl y).length + itemsLen lvl ys

/-- A lower bound on the printed size of the members after the first. -/
def membersLen (lvl : Nat) : List (List Char × Jn) → Nat
  | [] => 0
  | kv :: ks => 4 + (printVal lvl kv.2).length + membersLen lvl ks

/-! ## Concrete inputs for witnesses and counterexamples -/

def appleRec : ProfileRec :=
  { profile_id := "idA".toList, profile_cute_name := "Apple".toList, selected := false }

def bananaRec : ProfileRec :=
  { profile_id := "idB".toList, profile_cute_name := "Banana".toList, selected := true }

/-- The same save-slot as `bananaRec` but not flagged as selected. -/
def bananaRecPlain : ProfileRec :=
  { profile_id := "idB".toList, profile_cute_name := "Banana".toList, selected := false }

def appleData : ProfileData :=
  { profile_id := "idA".toList, cute_name := "Apple".toList, selected := false
    last_save := 100 }

def bananaData : ProfileData :=
  { profile_id := "idB".toList, cute_name := "Banana".toList, selected := true
    last_save := 200 }

/-- An upstream `profiles` mapping whose first entry was saved before the
second, exercising the (lack of) sorting in the Profile Lister. -/
def demoUpstream : List (List Char × ProfileData) :=
  [("A".toList, appleData), ("B".toList, bananaData)]

/-- A nested JSON document exercising every constructor. -/
def demoJson : Jn :=
  Jn.obj
    [ ("success".toList, Jn.bool true)
    , ("count".toList, Jn.num (-12))
    , ("data".toList,
        Jn.arr [Jn.num 7, Jn.str ("he\"y\n x".toList), Jn.null, Jn.obj [], Jn.arr []])
    ]

def demoEntry : PlanEntry :=
  { endpoint := "stats/u1/idA", file := "stats.json", descr := "Profile Statistics" }

/-- An environment whose run succeeds end to end except that exactly one
auxiliary endpoint (profile statistics) fails with a server error. -/
def c6Env : Env :=
  { prereqOk := true
    usernameInput := ""
    uuidResp := ApiResult.ok { uuid := some "u1", username := "Notch" }
    profResp := ApiResult.ok { profiles := some [("A".toList, appleData)] }
    statsResp := ApiResult.netErr "unused"
    inputs := []
    dirResult := some "out"
    fetch := fun s =>
      if s = "https://cupcake.shiiyu.moe/api/stats/u1/idA" then ApiResult.netErr "HTTP 500"
      else ApiResult.ok (Jn.obj [])
    summaryAck := false }

/-! ## Whitespace and character lemmas -/

theorem skipWs_cons_not_ws (c : Char) (s : List Char) (h : isWsChar c = false) :
    skipWs (c :: s) = c :: s := by
  simp [skipWs, h]

theorem skipWs_cons_ws (c : Char) (s : List Char) (h : isWsChar c = true) :
    skipWs (c :: s) = skipWs s := by
  simp [skipWs, h]

theorem skipWs_wsOnly_append (pre s : List Char) (h : wsOnly pre = true) :
    skipWs (pre ++ s) = skipWs s := by
  induction pre with
  | nil => rfl
  | cons c t ih =>
    simp only [wsOnly, List.all_cons, Bool.and_eq_true] at h
    simpa [skipWs, h.1] using ih (by simpa [wsOnly] using h.2)

theorem wsOnly_jIndent (lvl : Nat) : wsOnly (jIndent lvl) = true := by
  simp [wsOnly, jIndent, List.all_eq_true, List.mem_replicate]
  exact Or.inr (by decide)

theorem skipWs_jIndent (lvl : Nat) (s : List Char) :
    skipWs (jIndent lvl ++ s) = skipWs s :=
  skipWs_wsOnly_append _ _ (wsOnly_jIndent lvl)

theorem skipWs_nl (s : List Char) : skipWs ('\n' :: s) = skipWs s :=
  skipWs_cons_ws _ _ (by decide)

theorem digit_toNat_range (c : Char) (h : isDigitChar c = true) :
    48 ≤ c.toNat ∧ c.toNat ≤ 57 := by
  simpa [isDigitChar] using h

theorem toNat_digitChar (n : Nat) (h : n < 10) : (digitChar n).toNat = 48 + n := by
  interval_cases n <;> decide

theorem isDigitChar_digitChar (n : Nat) (h : n < 10) :
    isDigitChar (digitChar n) = true := by
  interval_cases n <;> decide

theorem not_ws_of_digit (c : Char) (h : isDigitChar c = true) : isWsChar c = false := by
  cases hw : isWsChar c with
  | false => rfl
  | true =>
    exfalso
    simp only [isWsChar, Bool.or_eq_true, decide_eq_true_eq] at hw
    rcases hw with ((rfl | rfl) | rfl) | rfl <;> simp [isDigitChar] at h

theorem digit_ne_chars (c : Char) (h : isDigitChar c = true) :
    c ≠ 'n' ∧ c ≠ 't' ∧ c ≠ 'f' ∧ c ≠ '"' ∧ c ≠ '[' ∧ c ≠ '\x7b' ∧
      c ≠ ']' ∧ c ≠ '\x7d' ∧ c ≠ ',' ∧ c ≠ '-' ∧ c ≠ ':' := by
  refine ⟨?_, ?_, ?_, ?_, ?_, ?_, ?_, ?_, ?_, ?_, ?_⟩ <;>
    (rintro rfl; simp [isDigitChar] at h)

theorem hexVal_hexDigitChar (n : Nat) (h : n < 16) :
    hexVal (hexDigitChar n) = some n := by
  interval_cases n <;> decide

/-! ## Numeral round trip -/

theorem natToChars_head (n : Nat) :
    ∃ d ds, natToChars n = d :: ds ∧ isDigitChar d = true := by
  induction n using natToChars.induct with
  | case1 n h =>
    exact ⟨digitChar n, [], by rw [natToChars]; simp [h], isDigitChar_digitChar n h⟩
  | case2 n h ih =>
    obtain ⟨d, ds, hd, hdig⟩ := ih
    exact ⟨d, ds ++ [digitChar (n % 10)], by rw [natToChars]; simp [h, hd], hdig⟩

theorem parseDigits_natToChars (n : Nat) :
    ∀ acc rest, parseDigits acc (natToChars n ++ rest) =
      parseDigits (acc * 10 ^ (natToChars n).length + n) rest := by
  induction n using natToChars.induct with
  | case1 n h =>
    intro acc rest
    rw [natToChars]
    simp only [h, if_pos]
    have h1 : parseDigits acc ([digitChar n] ++ rest) =
        parseDigits (10 * acc + ((digitChar n).toNat - 48)) rest := by
      simp [parseDigits, isDigitChar_digitChar n h]
    rw [h1, toNat_digitChar n h]
    have : 10 * acc + (48 + n - 48) = acc * 10 ^ ([digitChar n].length) + n := by
      simp; ring
    rw [this]
  | case2 n h ih =>
    intro acc rest
    rw [natToChars]
    simp only [h, if_neg, if_false]
    rw [List.append_assoc, ih]
    have hmod : n % 10 < 10 := Nat.mod_lt _ (by omega)
    have h2 : parseDigits (acc * 10 ^ (natToChars (n / 10)).length + n / 10)
          ([digitChar (n % 10)] ++ rest) =
        parseDigits (10 * (acc * 10 ^ (natToChars (n / 10)).length + n / 10) +
          ((digitChar (n % 10)).toNat - 48)) rest := by
      simp [parseDigits, isDigitChar_digitChar _ hmod]
    rw [h2, toNat_digitChar _ hmod]
    have key : 10 * (n / 10) + n % 10 = n := Nat.div_add_mod n 10
    have hlen : (natToChars (n / 10) ++ [digitChar (n % 10)]).length =
        (natToChars (n / 10)).length + 1 := by simp
    rw [hlen]
    have : 10 * (acc * 10 ^ (natToChars (n / 10)).length + n / 10) +
          (48 + n % 10 - 48) =
        acc * 10 ^ ((natToChars (n / 10)).length + 1) + n := by
      rw [pow_succ, ← mul_assoc]
      omega
    rw [this]

theorem parseDigits_stop (acc : Nat) (rest : List Char) (h : tailSafe rest = true) :
    parseDigits acc rest = (acc, rest) := by
  cases rest with
  | nil => rfl
  | cons c t =>
    simp only [tailSafe, Bool.not_eq_true', Bool.not_eq_true] at h
    simp [parseDigits, h]

theorem parseNat_natToChars (n : Nat) (rest : List Char) (h : tailSafe rest = true) :
    parseNat (natToChars n ++ rest) = some (n, rest) := by
  obtain ⟨d, ds, hd, hdig⟩ := natToChars_head n
  have key : parseDigits 0 (natToChars n ++ rest) = (n, rest) := by
    rw [parseDigits_natToChars]
    simpa using parseDigits_stop n rest h
  have key2 : parseDigits 0 (natToChars n ++ rest) =
      parseDigits (d.toNat - 48) (ds ++ rest) := by
    rw [hd]
    simp [parseDigits, hdig]
  rw [hd]
  simp only [List.cons_append, parseNat, hdig, if_pos]
  rw [← key2, key]

theorem parseIntTok_intToChars (i : Int) (rest : List Char) (h : tailSafe rest = true) :
    parseIntTok (intToChars i ++ rest) = some (i, rest) := by
  unfold intToChars
  by_cases hi : i < 0
  · rw [if_pos hi, List.cons_append]
    have hstep : parseIntTok ('-' :: (natToChars i.natAbs ++ rest)) =
        (parseNat (natToChars i.natAbs ++ rest)).map (fun r => (-(r.1 : Int), r.2)) := by
      simp [parseIntTok]
    rw [hstep, parseNat_natToChars _ _ h]
    simp only [Option.map_some']
    have hval : -((i.natAbs : Int)) = i := by omega
    rw [hval]
  · rw [if_neg hi]
    obtain ⟨d, ds, hd, hdig⟩ := natToChars_head i.toNat
    have hne : d ≠ '-' := (digit_ne_chars d hdig).2.2.2.2.2.2.2.2.2.1
    rw [hd, List.cons_append]
    simp only [parseIntTok, hne, if_false]
    rw [← List.cons_append, ← hd, parseNat_natToChars _ _ h]
    simp only [Option.map_some']
    have hval : ((i.toNat : Int)) = i := by omega
    rw [hval]

/-! ## String round trip -/

theorem parseStrBody_escape (s : List Char) :
    ∀ rest, parseStrBody (escapeStr s ++ '"' :: rest) = some (s, rest) := by
  induction s with
  | nil =>
    intro rest
    simp [escapeStr, parseStrBody]
  | cons c s ih =>
    intro rest
    have hesc : escapeStr (c :: s) = escapeChar c ++ escapeStr s := by
      simp [escapeStr]
    rw [hesc, List.append_assoc]
    unfold escapeChar
    by_cases h1 : c = '\\'
    · subst h1
      simp [parseStrBody, parseEsc, unescapeChar, ih]
    rw [if_neg h1]
    by_cases h2 : c = '"'
    · subst h2
      simp [parseStrBody, parseEsc, unescapeChar, ih]
    rw [if_neg h2]
    by_cases h3 : c = '\n'
    · subst h3
      simp [parseStrBody, parseEsc, unescapeChar, ih]
    rw [if_neg h3]
    by_cases h4 : c = '\t'
    · subst h4
      simp [parseStrBody, parseEsc, unescapeChar, ih]
    rw [if_neg h4]
    by_cases h5 : c = '\r'
    · subst h5
      simp [parseStrBody, parseEsc, unescapeChar, ih]
    rw [if_neg h5]
    by_cases h6 : c = '\x08'
    · subst h6
      simp [parseStrBody, parseEsc, unescapeChar, ih]
    rw [if_neg h6]
    by_cases h7 : c = '\x0c'
    · subst h7
      simp [parseStrBody, parseEsc, unescapeChar, ih]
    rw [if_neg h7]
    by_cases h8 : c.toNat < 32
    · rw [if_pos h8]
      have hq : ('\\' :: 'u' :: '0' :: '0' ::
            hexDigitChar (c.toNat / 16) :: hexDigitChar (c.toNat % 16) :: []) ++
            (escapeStr s ++ '"' :: rest) =
          '\\' :: 'u' :: '0' :: '0' ::
            hexDigitChar (c.toNat / 16) :: hexDigitChar (c.toNat % 16) ::
            (escapeStr s ++ '"' :: rest) := by simp
      rw [hq]
      have hd1 : hexVal (hexDigitChar (c.toNat / 16)) = some (c.toNat / 16) :=
        hexVal_hexDigitChar _ (by omega)
      have hd2 : hexVal (hexDigitChar (c.toNat % 16)) = some (c.toNat % 16) :=
        hexVal_hexDigitChar _ (by omega)
      have h00 : hexVal '0' = some 0 := by decide
      simp [parseStrBody, parseEsc, parseHexQuad, h00, hd1, hd2, ih]
      rw [Nat.div_add_mod, Char.ofNat_toNat]
    · rw [if_neg h8]
      have hsingle : ([c] ++ (escapeStr s ++ '"' :: rest)) =
          c :: (escapeStr s ++ '"' :: rest) := by
        simp
      rw [hsingle]
      simp [parseStrBody, h1, h2, ih]

/-! ## Head-character facts about printed values -/

theorem printVal_head (lvl : Nat) (v : Jn) :
    ∃ c cs, printVal lvl v = c :: cs ∧ isWsChar c = false ∧
      c ≠ ']' ∧ c ≠ '\x7d' ∧ c ≠ ',' ∧ c ≠ ':' := by
  cases v with
  | null =>
    exact ⟨'n', ['u', 'l', 'l'], by simp [printVal], by decide, by decide, by decide,
      by decide, by decide⟩
  | bool b =>
    cases b with
    | true =>
      exact ⟨'t', ['r', 'u', 'e'], by simp [printVal], by decide, by decide, by decide,
        by decide, by decide⟩
    | false =>
      exact ⟨'f', ['a', 'l', 's', 'e'], by simp [printVal], by decide, by decide, by decide,
        by decide, by decide⟩
  | num i =>
    by_cases hi : i < 0
    · refine ⟨'-', natToChars i.natAbs, ?_, by decide, by decide, by decide, by decide, by decide⟩
      simp [printVal, intToChars, hi]
    · obtain ⟨d, ds, hd, hdig⟩ := natToChars_head i.toNat
      obtain ⟨_, _, _, _, _, _, hne1, hne2, hne3, _, hne5⟩ := digit_ne_chars d hdig
      refine ⟨d, ds, ?_, not_ws_of_digit d hdig, hne1, hne2, hne3, hne5⟩
      simp [printVal, intToChars, hi, hd]
  | str s =>
    exact ⟨'"', escapeStr s ++ ['"'], by simp [printVal, printStr], by decide, by decide,
      by decide, by decide, by decide⟩
  | arr l =>
    cases l with
    | nil =>
      exact ⟨'[', [']'], by simp [printVal], by decide, by decide, by decide, by decide,
        by decide⟩
    | cons x xs =>
      exact ⟨'[', '\n' :: (printItems (lvl + 1) x xs ++ '\n' :: (jIndent lvl ++ [']'])),
        by simp [printVal], by decide, by decide, by decide, by decide, by decide⟩
  | obj l =>
    cases l with
    | nil =>
      exact ⟨'\x7b', ['\x7d'], by simp [printVal], by decide, by decide, by decide, by decide,
        by decide⟩
    | cons kv kvs =>
      exact ⟨'\x7b', '\n' :: (printMembers (lvl + 1) kv kvs ++ '\n' :: (jIndent lvl ++ ['\x7d'])),
        by simp [printVal], by decide, by decide, by decide, by decide, by decide⟩

/-! ## Decomposition of printed containers -/

theorem printItems_decomp (lvl : Nat) :
    ∀ (xs : List Jn) (x : Jn) (rest : List Char),
      printItems (lvl + 1) x xs ++ ('\n' :: (jIndent lvl ++ ']' :: rest)) =
        jIndent (lvl + 1) ++ (printVal (lvl + 1) x ++ tailInner lvl xs rest) := by
  intro xs
  induction xs with
  | nil =>
    intro x rest
    simp [printItems, tailInner, List.append_assoc]
  | cons y ys ih =>
    intro x rest
    simp only [printItems, tailInner, List.append_assoc, List.cons_append]
    rw [← ih y rest]

theorem printMembers_decomp (lvl : Nat) :
    ∀ (ks : List (List Char × Jn)) (kv : List Char × Jn) (rest : List Char),
      printMembers (lvl + 1) kv ks ++ ('\n' :: (jIndent lvl ++ '\x7d' :: rest)) =
        jIndent (lvl + 1) ++
          (printStr kv.1 ++ ':' :: ' ' :: (printVal (lvl + 1) kv.2 ++ objTailInner lvl ks rest)) := by
  intro ks
  induction ks with
  | nil =>
    intro kv rest
    obtain ⟨k, v⟩ := kv
    simp [printMembers, objTailInner, List.append_assoc]
  | cons kv2 ks2 ih =>
    intro kv rest
    obtain ⟨k, v⟩ := kv
    simp only [printMembers, objTailInner, List.append_assoc, List.cons_append]
    rw [← ih kv2 rest]

theorem tailSafe_tailInner (lvl : Nat) (xs : List Jn) (rest : List Char) :
    tailSafe (tailInner lvl xs rest) = true := by
  cases xs <;> simp [tailInner, tailSafe, isDigitChar]

theorem tailSafe_objTailInner (lvl : Nat) (ks : List (List Char × Jn)) (rest : List Char) :
    tailSafe (objTailInner lvl ks rest) = true := by
  cases ks <;> simp [objTailInner, tailSafe, isDigitChar]

/-! ## Fuel positivity -/

theorem fuelV_pos (v : Jn) : 1 ≤ fuelV v := by
  cases v <;> simp [fuelV] <;> omega

theorem fuelTail_pos (xs : List Jn) : 1 ≤ fuelTail xs := by
  cases xs <;> simp [fuelTail]

theorem fuelMTail_pos (ks : List (List Char × Jn)) : 1 ≤ fuelMTail ks := by
  cases ks with
  | nil => simp [fuelMTail]
  | cons kv ks =>
    obtain ⟨k, v⟩ := kv
    simp [fuelMTail]

/-! ## The parser recovers every printed value -/

theorem parse_print (f : Nat) :
    (∀ v lvl pre rest, fuelV v ≤ f → wsOnly pre = true → tailSafe rest = true →
        parseVal f (pre ++ (printVal lvl v ++ rest)) = some (v, rest))
  ∧ (∀ l lvl rest, 1 + fuelL l ≤ f →
        parseArr f (arrInner lvl l rest) = some (.arr l, rest))
  ∧ (∀ xs lvl rest, fuelTail xs ≤ f →
        parseArrTail f (tailInner lvl xs rest) = some (xs, rest))
  ∧ (∀ kvs lvl rest, 1 + fuelM kvs ≤ f →
        parseObj f (objInner lvl kvs rest) = some (.obj kvs, rest))
  ∧ (∀ k v lvl pre rest, 1 + fuelV v ≤ f → wsOnly pre = true → tailSafe rest = true →
        parseMember f (pre ++ (printStr k ++ ':' :: ' ' :: (printVal lvl v ++ rest))) =
          some ((k, v), rest))
  ∧ (∀ ks lvl rest, fuelMTail ks ≤ f →
        parseObjTail f (objTailInner lvl ks rest) = some (ks, rest)) := by
  induction f with
  | zero =>
    refine ⟨?_, ?_, ?_, ?_, ?_, ?_⟩
    · intro v _ _ _ hf _ _
      exact absurd hf (by have := fuelV_pos v; omega)
    · intro l _ _ hf
      exact absurd hf (by omega)
    · intro xs _ _ hf
      exact absurd hf (by have := fuelTail_pos xs; omega)
    · intro kvs _ _ hf
      exact absurd hf (by omega)
    · intro _ v _ _ _ hf _ _
      exact absurd hf (by omega)
    · intro ks _ _ hf
      exact absurd hf (by have := fuelMTail_pos ks; omega)
  | succ f ih =>
    obtain ⟨SV, SA, ST, SO, SM, SOT⟩ := ih
    refine ⟨?_, ?_, ?_, ?_, ?_, ?_⟩
    -- parseVal
    · intro v lvl pre rest hf hpre hsafe
      cases v with
      | null =>
        simp only [parseVal, printVal]
        rw [skipWs_wsOnly_append _ _ hpre,
          show ("null".toList ++ rest : List Char) = 'n' :: 'u' :: 'l' :: 'l' :: rest from rfl,
          skipWs_cons_not_ws _ _ (by decide)]
        simp +decide [expectChars]
      | bool b =>
        cases b with
        | true =>
          simp only [parseVal, printVal]
          rw [skipWs_wsOnly_append _ _ hpre,
            show ("true".toList ++ rest : List Char) = 't' :: 'r' :: 'u' :: 'e' :: rest from
              rfl,
            skipWs_cons_not_ws _ _ (by decide)]
          simp +decide [expectChars]
        | false =>
          simp only [parseVal, printVal]
          rw [skipWs_wsOnly_append _ _ hpre,
            show ("false".toList ++ rest : List Char) =
                'f' :: 'a' :: 'l' :: 's' :: 'e' :: rest from rfl,
            skipWs_cons_not_ws _ _ (by decide)]
          simp +decide [expectChars]
      | num i =>
        have hx := parseIntTok_intToChars i rest hsafe
        by_cases hi : i < 0
        · have hneg : intToChars i = '-' :: natToChars i.natAbs := by
            simp [intToChars, hi]
          rw [hneg] at hx
          simp only [List.cons_append] at hx
          simp only [parseVal, printVal, hneg]
          rw [skipWs_wsOnly_append _ _ hpre, List.cons_append,
            skipWs_cons_not_ws _ _ (by decide)]
          simp +decide [hx]
        · have hpos : intToChars i = natToChars i.toNat := by
            simp [intToChars, hi]
          obtain ⟨d, ds, hd, hdig⟩ := natToChars_head i.toNat
          rw [hpos, hd] at hx
          simp only [List.cons_append] at hx
          obtain ⟨hn1, hn2, hn3, hn4, hn5, hn6, _, _, _, _, _⟩ := digit_ne_chars d hdig
          simp only [parseVal, printVal, hpos, hd]
          rw [skipWs_wsOnly_append _ _ hpre, List.cons_append,
            skipWs_cons_not_ws _ _ (not_ws_of_digit d hdig)]
          simp [hn1, hn2, hn3, hn4, hn5, hn6, hdig, hx]
      | str s =>
        simp only [parseVal, printVal, printStr, List.cons_append, List.append_assoc,
          List.singleton_append]
        rw [skipWs_wsOnly_append _ _ hpre, skipWs_cons_not_ws _ _ (by decide)]
        simp +decide [parseStrBody_escape s rest]
      | arr l =>
        cases l with
        | nil =>
          have hf2 : 1 + fuelL ([] : List Jn) ≤ f := by
            simp only [fuelV, fuelL] at hf ⊢
            omega
          have hSA := SA [] lvl rest hf2
          simp only [arrInner] at hSA
          simp only [parseVal, printVal, List.cons_append]
          rw [skipWs_wsOnly_append _ _ hpre, skipWs_cons_not_ws _ _ (by decide)]
          simp +decide [hSA]
        | cons x xs =>
          have hf2 : 1 + fuelL (x :: xs) ≤ f := by
            simp only [fuelV] at hf
            omega
          have hSA := SA (x :: xs) lvl rest hf2
          simp only [arrInner] at hSA
          simp only [parseVal, printVal, List.cons_append, List.append_assoc,
            List.singleton_append]
          rw [skipWs_wsOnly_append _ _ hpre, skipWs_cons_not_ws _ _ (by decide)]
          simp +decide [hSA]
      | obj l =>
        cases l with
        | nil =>
          have hf2 : 1 + fuelM ([] : List (List Char × Jn)) ≤ f := by
            simp only [fuelV, fuelM] at hf ⊢
            omega
          have hSO := SO [] lvl rest hf2
          simp only [objInner] at hSO
          simp only [parseVal, printVal, List.cons_append]
          rw [skipWs_wsOnly_append _ _ hpre, skipWs_cons_not_ws _ _ (by decide)]
          simp +decide [hSO]
        | cons kv kvs =>
          have hf2 : 1 + fuelM (kv :: kvs) ≤ f := by
            simp only [fuelV] at hf
            omega
          have hSO := SO (kv :: kvs) lvl rest hf2
          simp only [objInner] at hSO
          simp only [parseVal, printVal, List.cons_append, List.append_assoc,
            List.singleton_append]
          rw [skipWs_wsOnly_append _ _ hpre, skipWs_cons_not_ws _ _ (by decide)]
          simp +decide [hSO]
    -- parseArr
    · intro l lvl rest hf
      cases l with
      | nil =>
        simp only [arrInner, parseArr]
        rw [skipWs_cons_not_ws _ _ (by decide)]
        simp +decide
      | cons x xs =>
        obtain ⟨c, cs2, hc, hws, hne1, hne2, hne3, hne4⟩ := printVal_head (lvl + 1) x
        have hfx : fuelV x ≤ f := by
          have h1 := le_max_left (fuelV x) (fuelTail xs)
          simp only [fuelL] at hf
          omega
        have hfxs : fuelTail xs ≤ f := by
          have h1 := le_max_right (fuelV x) (fuelTail xs)
          simp only [fuelL] at hf
          omega
        have hSV := SV x (lvl + 1) [] (tailInner lvl xs rest) hfx (by decide)
          (tailSafe_tailInner lvl xs rest)
        rw [List.nil_append, hc, List.cons_append] at hSV
        have hST := ST xs lvl rest hfxs
        simp only [arrInner, parseArr]
        rw [skipWs_nl, printItems_decomp lvl xs x rest, skipWs_jIndent, hc,
          List.cons_append, skipWs_cons_not_ws _ _ hws]
        simp [hne1, hSV, hST]
    -- parseArrTail
    · intro xs lvl rest hf
      cases xs with
      | nil =>
        simp only [tailInner, parseArrTail]
        rw [skipWs_nl, skipWs_jIndent, skipWs_cons_not_ws _ _ (by decide)]
        simp +decide
      | cons y ys =>
        have hfy : fuelV y ≤ f := by
          have h1 := le_max_left (fuelV y) (fuelTail ys)
          simp only [fuelTail] at hf
          omega
        have hfys : fuelTail ys ≤ f := by
          have h1 := le_max_right (fuelV y) (fuelTail ys)
          simp only [fuelTail] at hf
          omega
        have hpre : wsOnly ('\n' :: jIndent (lvl + 1)) = true := by
          simp [wsOnly, List.all_cons]
          exact ⟨by decide, by simpa [wsOnly] using wsOnly_jIndent (lvl + 1)⟩
        have hSV := SV y (lvl + 1) ('\n' :: jIndent (lvl + 1)) (tailInner lvl ys rest) hfy
          hpre (tailSafe_tailInner lvl ys rest)
        simp only [List.cons_append, List.append_assoc] at hSV
        have hST := ST ys lvl rest hfys
        simp only [tailInner, parseArrTail]
        rw [skipWs_cons_not_ws _ _ (by decide)]
        simp +decide [hSV, hST]
    -- parseObj
    · intro kvs lvl rest hf
      cases kvs with
      | nil =>
        simp only [objInner, parseObj]
        rw [skipWs_cons_not_ws _ _ (by decide)]
        simp +decide
      | cons kv ks =>
        obtain ⟨k, v⟩ := kv
        have hfv : 1 + fuelV v ≤ f := by
          have h1 := le_max_left (1 + fuelV v) (fuelMTail ks)
          simp only [fuelM] at hf
          omega
        have hfks : fuelMTail ks ≤ f := by
          have h1 := le_max_right (1 + fuelV v) (fuelMTail ks)
          simp only [fuelM] at hf
          omega
        have hSM := SM k v (lvl + 1) [] (objTailInner lvl ks rest) hfv (by decide)
          (tailSafe_objTailInner lvl ks rest)
        rw [List.nil_append] at hSM
        simp only [printStr, List.cons_append, List.append_assoc,
          List.singleton_append, List.nil_append] at hSM
        have hSOT := SOT ks lvl rest hfks
        simp only [objInner, parseObj]
        rw [skipWs_nl, printMembers_decomp lvl ks (k, v) rest, skipWs_jIndent]
        simp only [printStr, List.cons_append]
        rw [skipWs_cons_not_ws _ _ (by decide)]
        simp +decide [hSM, hSOT]
    -- parseMember
    · intro k v lvl pre rest hf hpre hsafe
      have hfv : fuelV v ≤ f := by omega
      have hSV := SV v lvl [' '] rest hfv (by decide) hsafe
      simp only [List.cons_append, List.nil_append, List.singleton_append] at hSV
      simp only [parseMember, printStr, List.cons_append]
      rw [skipWs_wsOnly_append _ _ hpre, skipWs_cons_not_ws _ _ (by decide)]
      have hstr : parseStrBody (escapeStr k ++
          '"' :: ':' :: ' ' :: (printVal lvl v ++ rest)) =
          some (k, ':' :: ' ' :: (printVal lvl v ++ rest)) :=
        parseStrBody_escape k _
      simp +decide [hstr, hSV, skipWs, List.append_assoc, List.singleton_append]
    -- parseObjTail
    · intro ks lvl rest hf
      cases ks with
      | nil =>
        simp only [objTailInner, parseObjTail]
        rw [skipWs_nl, skipWs_jIndent, skipWs_cons_not_ws _ _ (by decide)]
        simp +decide
      | cons kv ks2 =>
        obtain ⟨k, v⟩ := kv
        have hfv : 1 + fuelV v ≤ f := by
          have h1 := le_max_left (1 + fuelV v) (fuelMTail ks2)
          simp only [fuelMTail] at hf
          omega
        have hfks : fuelMTail ks2 ≤ f := by
          have h1 := le_max_right (1 + fuelV v) (fuelMTail ks2)
          simp only [fuelMTail] at hf
          omega
        have hpre : wsOnly ('\n' :: jIndent (lvl + 1)) = true := by
          simp [wsOnly, List.all_cons]
          exact ⟨by decide, by simpa [wsOnly] using wsOnly_jIndent (lvl + 1)⟩
        have hSM := SM k v (lvl + 1) ('\n' :: jIndent (lvl + 1)) (objTailInner lvl ks2 rest)
          hfv hpre (tailSafe_objTailInner lvl ks2 rest)
        simp only [List.cons_append, List.append_assoc] at hSM
        have hSOT := SOT ks2 lvl rest hfks
        simp only [objTailInner, parseObjTail]
        rw [skipWs_cons_not_ws _ _ (by decide)]
        simp +decide [hSM, hSOT]

/-! ## The fuel requirement is bounded by the printed length -/

theorem printItems_len (lvl : Nat) :
    ∀ (xs : List Jn) (x : Jn),
      (printVal lvl x).length + itemsLen lvl xs ≤ (printItems lvl x xs).length := by
  intro xs
  induction xs with
  | nil =>
    intro x
    simp [printItems, itemsLen]
  | cons y ys ih =>
    intro x
    have := ih y
    simp only [printItems, itemsLen] at *
    simp only [List.length_append, List.length_cons]
    omega

theorem printStr_len (k : List Char) : (printStr k).length = 2 + (escapeStr k).length := by
  simp [printStr]
  omega

theorem printMembers_len (lvl : Nat) :
    ∀ (ks : List (List Char × Jn)) (kv : List Char × Jn),
      4 + (printVal lvl kv.2).length + membersLen lvl ks ≤
        (printMembers lvl kv ks).length := by
  intro ks
  induction ks with
  | nil =>
    intro kv
    obtain ⟨k, v⟩ := kv
    simp only [printMembers, membersLen, List.length_append, List.length_cons]
    have := printStr_len k
    omega
  | cons kv2 ks2 ih =>
    intro kv
    obtain ⟨k, v⟩ := kv
    have := ih kv2
    simp only [printMembers, membersLen] at *
    simp only [List.length_append, List.length_cons]
    have := printStr_len k
    omega

mutual

theorem fuelV_le_len : ∀ (v : Jn) (lvl : Nat), fuelV v ≤ (printVal lvl v).length + 1
  | .null, lvl => by simp [fuelV, printVal]
  | .bool b, lvl => by cases b <;> simp [fuelV, printVal]
  | .num i, lvl => by simp [fuelV]
  | .str s, lvl => by simp [fuelV]
  | .arr [], lvl => by simp [fuelV, fuelL, printVal]
  | .arr (x :: xs), lvl => by
    have hx := fuelV_le_len x (lvl + 1)
    have hxs := fuelTail_le_len xs (lvl + 1)
    have hpi := printItems_len (lvl + 1) xs x
    simp only [fuelV, fuelL, printVal, List.length_append, List.length_cons,
      jIndent, List.length_replicate]
    omega
  | .obj [], lvl => by simp [fuelV, fuelM, printVal]
  | .obj ((k, v) :: kvs), lvl => by
    have hv := fuelV_le_len v (lvl + 1)
    have hks := fuelMTail_le_len kvs (lvl + 1)
    have hpm : 4 + (printVal (lvl + 1) v).length + membersLen (lvl + 1) kvs ≤
        (printMembers (lvl + 1) (k, v) kvs).length :=
      printMembers_len (lvl + 1) kvs (k, v)
    simp only [fuelV, fuelM, printVal, List.length_append, List.length_cons,
      jIndent, List.length_replicate]
    omega
termination_by v _ => sizeOf v
decreasing_by all_goals (simp_wf; omega)

theorem fuelTail_le_len : ∀ (xs : List Jn) (lvl : Nat), fuelTail xs ≤ itemsLen lvl xs + 1
  | [], lvl => by simp [fuelTail, itemsLen]
  | y :: ys, lvl => by
    have hy := fuelV_le_len y lvl
    have hys := fuelTail_le_len ys lvl
    simp only [fuelTail, itemsLen]
    omega
termination_by xs _ => sizeOf xs
decreasing_by all_goals (simp_wf <;> omega)

theorem fuelMTail_le_len :
    ∀ (ks : List (List Char × Jn)) (lvl : Nat), fuelMTail ks ≤ membersLen lvl ks + 1
  | [], lvl => by simp [fuelMTail, membersLen]
  | (k, v) :: ks2, lvl => by
    have hv := fuelV_le_len v lvl
    have hks := fuelMTail_le_len ks2 lvl
    simp only [fuelMTail, membersLen]
    omega
termination_by ks _ => sizeOf ks
decreasing_by all_goals (simp_wf <;> omega)

end

/-- Serialization round trip: parsing the printed document recovers the
value exactly. -/
theorem jsonLoads_jsonDumps (v : Jn) : jsonLoads (jsonDumps v) = some v := by
  unfold jsonLoads jsonDumps
  have hfuel : fuelV v ≤ (printVal 0 v).length + 1 := fuelV_le_len v 0
  have h := (parse_print ((printVal 0 v).length + 1)).1 v 0 [] [] hfuel (by decide) (by decide)
  simp only [List.nil_append, List.append_nil] at h
  rw [h]
  simp [skipWs]

/-! ## Extraction accounting -/

theorem make_api_call_httpErr {α : Type} (code : Nat) (ctx : String) (ig : Bool) :
    ∃ e, make_api_call (ApiResult.httpErr code : ApiResult α) ctx ig = .error e := by
  unfold make_api_call
  dsimp only
  split_ifs <;> exact ⟨_, rfl⟩

theorem save_item_ok (fetch : String → ApiResult Jn) (it : PlanEntry) (dir : String)
    (j : Jn) (hfo : fetch (BASE_URL ++ "/" ++ it.endpoint) = .ok j) :
    save_profile_data fetch it dir =
      { ok := true, files := [(dir ++ "/" ++ it.file, jsonDumps j)], warnings := [] } ∧
    fetchOk fetch it = true := by
  constructor
  · simp [save_profile_data, make_api_call, hfo]
  · simp [fetchOk, hfo]

theorem save_item_err (fetch : String → ApiResult Jn) (it : PlanEntry) (dir : String)
    (hfo : fetchOk fetch it = false) :
    (save_profile_data fetch it dir).ok = false ∧
    (save_profile_data fetch it dir).files = [] ∧
    (save_profile_data fetch it dir).warnings.length = 1 := by
  unfold fetchOk at hfo
  cases hres : fetch (BASE_URL ++ "/" ++ it.endpoint) with
  | ok a => rw [hres] at hfo; simp at hfo
  | httpErr code =>
    obtain ⟨e, he⟩ := make_api_call_httpErr (α := Jn) code it.descr false
    simp [save_profile_data, hres, he]
  | netErr m => simp [save_profile_data, hres, make_api_call]

theorem saves_facts (fetch : String → ApiResult Jn) (dir : String) :
    ∀ entries : List PlanEntry,
      ((entries.map (fun it => save_profile_data fetch it dir)).filter
          (fun o => o.ok)).length = (entries.filter (fetchOk fetch)).length
      ∧ ((entries.map (fun it => save_profile_data fetch it dir)).map
            (fun o => o.files)).flatten.map Prod.fst =
          (entries.filter (fetchOk fetch)).map (fun e => dir ++ "/" ++ e.file)
      ∧ ((entries.map (fun it => save_profile_data fetch it dir)).map
            (fun o => o.warnings)).flatten.length +
          (entries.filter (fetchOk fetch)).length = entries.length := by
  intro entries
  induction entries with
  | nil => simp
  | cons it rest ih =>
    obtain ⟨ih1, ih2, ih3⟩ := ih
    by_cases hok : fetchOk fetch it = true
    · have hj : ∃ j, fetch (BASE_URL ++ "/" ++ it.endpoint) = .ok j := by
        unfold fetchOk at hok
        cases hres : fetch (BASE_URL ++ "/" ++ it.endpoint) with
        | ok a => exact ⟨a, rfl⟩
        | httpErr code => rw [hres] at hok; simp at hok
        | netErr m => rw [hres] at hok; simp at hok
      obtain ⟨j, hj⟩ := hj
      obtain ⟨hsave, _⟩ := save_item_ok fetch it dir j hj
      refine ⟨?_, ?_, ?_⟩
      · simp only [List.map_cons, hsave, List.filter_cons, hok, if_pos, List.length_cons]
        simp [ih1]
      · simp only [List.map_cons, hsave, List.flatten_cons, List.filter_cons, hok, if_pos]
        simp only [List.map_append]
        rw [ih2]
        simp
      · simp only [List.map_cons, hsave, List.flatten_cons, List.filter_cons, hok, if_pos,
          List.length_cons, List.nil_append, List.length_append]
        omega
    · have hok2 : fetchOk fetch it = false := by
        revert hok; cases fetchOk fetch it <;> simp
      obtain ⟨h1, h2, h3⟩ := save_item_err fetch it dir hok2
      refine ⟨?_, ?_, ?_⟩
      · simp only [List.map_cons, List.filter_cons, h1, hok2, Bool.false_eq_true, if_false]
        exact ih1
      · simp only [List.map_cons, List.flatten_cons, h2, List.filter_cons, hok2,
          Bool.false_eq_true, if_false, List.nil_append]
        exact ih2
      · simp only [List.map_cons, List.flatten_cons, List.filter_cons, hok2,
          Bool.false_eq_true, if_false, List.length_cons, List.length_append, h3]
        omega

theorem extraction_plan_length (uuid pid : String) :
    (extraction_plan uuid pid).length = 25 ∧ (base_plan uuid pid).length = 16 ∧
      inventory_types.length = 9 := by
  refine ⟨?_, rfl, rfl⟩
  simp [extraction_plan, base_plan, inventory_types]

theorem extract_profile_data_spec (fetch : String → ApiResult Jn)
    (uuid pid dir : String) :
    (extract_profile_data fetch uuid pid dir).total = 25
  ∧ (extract_profile_data fetch uuid pid dir).success =
      ((extraction_plan uuid pid).filter (fetchOk fetch)).length
  ∧ (extract_profile_data fetch uuid pid dir).files.map Prod.fst =
      ((extraction_plan uuid pid).filter (fetchOk fetch)).map (fun e => dir ++ "/" ++ e.file)
  ∧ (extract_profile_data fetch uuid pid dir).files.length =
      (extract_profile_data fetch uuid pid dir).success
  ∧ (extract_profile_data fetch uuid pid dir).warnings.length +
      (extract_profile_data fetch uuid pid dir).success = 25
  ∧ (extract_profile_data fetch uuid pid dir).success_rate =
      pythonRound1 (((extract_profile_data fetch uuid pid dir).success : ℚ) /
        ((extract_profile_data fetch uuid pid dir).total : ℚ) * 100) := by
  obtain ⟨hs1, hs2, hs3⟩ := saves_facts fetch dir (extraction_plan uuid pid)
  have hlen := (extraction_plan_length uuid pid).1
  refine ⟨?_, ?_, ?_, ?_, ?_, ?_⟩
  · simp [extract_profile_data, hlen]
  · simpa [extract_profile_data] using hs1
  · simpa [extract_profile_data] using hs2
  · have hmap := congrArg List.length hs2
    simp only [List.length_map] at hmap
    simp only [extract_profile_data]
    rw [hmap, hs1]
  · simp only [extract_profile_data]
    omega
  · simp only [extract_profile_data, hlen]

/-! ## Selector facts -/

theorem select_silent_isSome (ps : List ProfileRec) (rq : Option (List Char))
    (inputs : List UserInput) (h : ps ≠ []) :
    ((select_profile ps rq true inputs).1).isSome = true := by
  match ps with
  | [] => exact absurd rfl h
  | [p] => simp [select_profile]
  | p :: q :: rest =>
    have hdef : (defaultSelect (p :: q :: rest) true inputs).isSome = true := by
      unfold defaultSelect
      cases hfind : (p :: q :: rest).find? (fun x => x.selected) <;> simp
    unfold select_profile
    by_cases hg : requestedGiven rq = true
    · rw [if_pos hg]
      match rq with
      | none => simp [requestedGiven] at hg
      | some rqn =>
        cases hmatch : (p :: q :: rest).find?
            (fun x => lowerStr x.profile_cute_name = lowerStr rqn) with
        | some x => simp [hmatch]
        | none => simp [hmatch, hdef]
    · rw [if_neg hg]
      match rq with
      | none => simpa using hdef
      | some rqn => simpa using hdef

/-! ## Lister facts -/

theorem profilesFallback_shape (statsResp : ApiResult StatsPayload) (warns : List String) :
    (profilesFallback statsResp warns).result = none ∨
      ∃ sd : StatsData, (profilesFallback statsResp warns).result =
        some [{ profile_id := sd.profile_id, profile_cute_name := sd.profile_cute_name
                selected := true }] := by
  unfold profilesFallback
  cases statsResp with
  | ok payload =>
    cases hstats : payload.stats with
    | some sd => exact Or.inr ⟨sd, by simp [make_api_call, hstats]⟩
    | none => exact Or.inl (by simp [make_api_call, hstats])
  | httpErr code =>
    obtain ⟨e, he⟩ := make_api_call_httpErr (α := StatsPayload) code "Active profile lookup" false
    exact Or.inl (by simp [he])
  | netErr m => exact Or.inl (by simp [make_api_call])

theorem lister_some_ne_nil (profResp : ApiResult ProfilesPayload)
    (statsResp : ApiResult StatsPayload) (ps : List ProfileRec)
    (h : (get_player_profiles profResp statsResp).result = some ps) : ps ≠ [] := by
  have hfb : ∀ warns, (profilesFallback statsResp warns).result = some ps → ps ≠ [] := by
    intro warns hw
    rcases profilesFallback_shape statsResp warns with hnone | ⟨sd, hsd⟩
    · rw [hnone] at hw; exact absurd hw (by simp)
    · rw [hsd] at hw
      intro hnil
      rw [hnil] at hw
      simp at hw
  unfold get_player_profiles at h
  cases profResp with
  | ok payload =>
    simp only [make_api_call] at h
    cases hprof : payload.profiles with
    | some l =>
      rw [hprof] at h
      by_cases hemp : l.isEmpty
      · simp only [hemp, if_pos] at h
        exact hfb _ h
      · simp only [hemp, Bool.false_eq_true, if_false] at h
        intro hnil
        rw [hnil] at h
        simp only [Option.some.injEq] at h
        have := congrArg List.length h
        simp at this
        rw [List.isEmpty_iff] at hemp
        exact hemp this
    | none =>
      rw [hprof] at h
      exact hfb _ h
  | httpErr code =>
    obtain ⟨e, he⟩ := make_api_call_httpErr (α := ProfilesPayload) code "Full profile lookup" true
    rw [he] at h
    dsimp only at h
    by_cases hsub : containsSub "403 Forbidden".toList e.toList
    · rw [if_pos hsub] at h
      exact hfb _ h
    · rw [if_neg hsub] at h
      exact hfb _ h
  | netErr m =>
    simp only [make_api_call] at h
    by_cases hsub : containsSub "403 Forbidden".toList
        ("Full profile lookup" ++ " failed - " ++ m).toList
    · rw [if_pos hsub] at h
      exact hfb _ h
    · rw [if_neg hsub] at h
      exact hfb _ h

/-! ## Claim theorems: Profile Selector -/

/-- C3 counterexample: with no requested name in silent mode over the
list `[Apple (not selected), Banana (selected)]`, `select_profile`
returns Banana, not the first element Apple — refuting the claim that
the selector always returns `profiles[0]` in this situation. -/
theorem c3_counterexample :
    (select_profile [appleRec, bananaRec] none true []).1 = some bananaRec
  ∧ ([appleRec, bananaRec] : List ProfileRec).head? = some appleRec
  ∧ bananaRec ≠ appleRec := by
  refine ⟨?_, rfl, by decide⟩
  decide

/-- C3 (amended): with no requested name in silent mode,
`select_profile` returns the first profile flagged `selected`, and the
first element only when no profile is flagged. -/
theorem c3_amended (ps : List ProfileRec) (inputs : List UserInput) :
    (select_profile ps none true inputs).1 =
      ((ps.find? (fun p => p.selected)).or ps.head?) := by
  match ps with
  | [] => simp [select_profile]
  | [p] =>
    cases hp : p.selected <;>
      simp [select_profile, List.find?, hp, Option.or]
  | p :: q :: rest =>
    have hg : requestedGiven none = false := rfl
    unfold select_profile
    rw [if_neg (by simp [hg])]
    unfold defaultSelect
    rw [if_pos rfl]
    cases hfind : (p :: q :: rest).find? (fun x => x.selected) <;> simp [hfind, Option.or]

/-- C9: the empty profile list makes `select_profile` return no
selection (and no warning), for every requested name and mode, instead
of raising. -/
theorem c9_empty_select (rq : Option (List Char)) (silent : Bool)
    (inputs : List UserInput) :
    select_profile [] rq silent inputs = (none, false) := rfl

/-- C4: whenever some profile of the list matches the requested
(non-empty) name case-insensitively and the match is unambiguous,
`select_profile` returns exactly that profile, in both silent and
interactive modes and for every ordering of the list. -/
theorem c4_requested_match (ps : List ProfileRec) (rq : List Char) (silent : Bool)
    (inputs : List UserInput) (p : ProfileRec)
    (hrq : rq ≠ [])
    (hmem : p ∈ ps)
    (hmatch : lowerStr p.profile_cute_name = lowerStr rq)
    (huniq : ∀ q ∈ ps, lowerStr q.profile_cute_name = lowerStr rq → q = p) :
    (select_profile ps (some rq) silent inputs).1 = some p := by
  match ps with
  | [] => simp at hmem
  | [x] =>
    have hx : p = x := by simpa using hmem
    subst hx
    simp [select_profile]
  | x :: y :: rest =>
    have hg : requestedGiven (some rq) = true := by
      simp [requestedGiven, hrq]
    have hsome : (((x :: y :: rest).find?
        (fun q => lowerStr q.profile_cute_name = lowerStr rq))).isSome := by
      rw [List.find?_isSome]
      exact ⟨p, hmem, by simp [hmatch]⟩
    obtain ⟨q, hq⟩ := Option.isSome_iff_exists.mp hsome
    have hqp : q = p :=
      huniq q (List.mem_of_find?_eq_some hq) (by simpa using List.find?_some hq)
    simp only [select_profile]
    rw [if_pos hg]
    rw [hq]
    simp [hqp]

/-- C4 witness: requesting `bAnAnA` over `[Apple, Banana]` in
interactive mode returns the Banana profile without consulting the
prompt. -/
theorem c4_witness :
    (select_profile [appleRec, bananaRec] (some "bAnAnA".toList) false
        [UserInput.interrupt]).1 = some bananaRec :=
  c4_requested_match [appleRec, bananaRec] "bAnAnA".toList false [UserInput.interrupt]
    bananaRec (by decide) (by decide) (by decide) (by decide)

/-- C5 counterexample: for the singleton list `[Apple]` and the
requested name `Mango` (which matches nothing), `select_profile`
returns Apple with NO warning emitted — the singleton short-circuit
precedes the name lookup, refuting the claim for every non-empty
list. -/
theorem c5_counterexample :
    select_profile [appleRec] (some "Mango".toList) true [] = (some appleRec, false) := by
  decide

/-- C5 (amended): for lists of at least two profiles, a requested
(non-empty) name matching no profile makes `select_profile` emit the
not-found warning and fall through to the same selection it would have
made with no requested name; a singleton list returns its sole element
without a warning. -/
theorem c5_amended (ps : List ProfileRec) (rq : List Char) (silent : Bool)
    (inputs : List UserInput)
    (hlen : 2 ≤ ps.length) (hrq : rq ≠ [])
    (hnone : ∀ q ∈ ps, lowerStr q.profile_cute_name ≠ lowerStr rq) :
    select_profile ps (some rq) silent inputs =
      ((select_profile ps none silent inputs).1, true) := by
  match ps with
  | [] => simp at hlen
  | [x] => simp at hlen
  | x :: y :: rest =>
    have hg : requestedGiven (some rq) = true := by
      simp [requestedGiven, hrq]
    have hfind : (x :: y :: rest).find?
        (fun q => lowerStr q.profile_cute_name = lowerStr rq) = none := by
      rw [List.find?_eq_none]
      intro q hq
      simp [hnone q hq]
    simp only [select_profile]
    rw [if_pos hg, if_neg (by simp [requestedGiven])]
    dsimp only
    rw [hfind]

/-- C5 witness: `Mango` over `[Apple, Banana]` warns and selects what
the no-override call selects. -/
theorem c5_witness :
    2 ≤ ([appleRec, bananaRecPlain] : List ProfileRec).length
  ∧ select_profile [appleRec, bananaRecPlain] (some "Mango".toList) true [] =
      ((select_profile [appleRec, bananaRecPlain] none true []).1, true) :=
  ⟨by decide,
    c5_amended [appleRec, bananaRecPlain] "Mango".toList true [] (by decide) (by decide)
      (by decide)⟩

/-! ## Claim theorems: Profile Lister -/

/-- C2 counterexample: for an upstream mapping whose first profile
(Apple) was saved at 100 and second (Banana) at 200,
`get_player_profiles` returns `[Apple, Banana]` — the upstream order —
while the spec's stable sort by `last_saved` descending would put
Banana first.  The emitted records carry no last-saved field at all. -/
theorem c2_counterexample :
    (get_player_profiles (ApiResult.ok { profiles := some demoUpstream })
        (ApiResult.netErr "unused")).result = some [appleRec, bananaRec]
  ∧ (spec_sort_profiles demoUpstream).map (fun pr => projRec pr.2) = [bananaRec, appleRec]
  ∧ (get_player_profiles (ApiResult.ok { profiles := some demoUpstream })
        (ApiResult.netErr "unused")).result ≠
      some ((spec_sort_profiles demoUpstream).map (fun pr => projRec pr.2)) := by
  refine ⟨by decide, by decide, by decide⟩

/-- C2 (amended): on the comprehensive-endpoint success path with a
non-empty `profiles` mapping, `get_player_profiles` returns the
projected records in exactly the upstream order — trivially stable, and
not sorted by `last_saved` (which it never reads). -/
theorem c2_amended (l : List (List Char × ProfileData))
    (statsResp : ApiResult StatsPayload) (h : l.isEmpty = false) :
    (get_player_profiles (ApiResult.ok { profiles := some l }) statsResp).result =
      some (l.map (fun pr => projRec pr.2)) := by
  simp [get_player_profiles, make_api_call, h]

/-- C2 witness: the upstream mapping of the counterexample is non-empty
and comes back in upstream order. -/
theorem c2_witness :
    demoUpstream.isEmpty = false
  ∧ (get_player_profiles (ApiResult.ok { profiles := some demoUpstream })
        (ApiResult.netErr "unused")).result =
      some (demoUpstream.map (fun pr => projRec pr.2)) :=
  ⟨by decide, c2_amended demoUpstream (ApiResult.netErr "unused") (by decide)⟩

/-- C8: when the comprehensive listing endpoint answers with HTTP 403,
`get_player_profiles` warns about restricted permissions, queries the
active-profile endpoint, and — when that succeeds with a `stats`
object — returns the one-element list whose single record is flagged
as currently selected. -/
theorem c8_fallback_403 (sd : StatsData) :
    (get_player_profiles (ApiResult.httpErr 403)
        (ApiResult.ok { stats := some sd })).result =
      some [{ profile_id := sd.profile_id, profile_cute_name := sd.profile_cute_name
              selected := true }]
  ∧ (get_player_profiles (ApiResult.httpErr 403)
        (ApiResult.ok { stats := some sd })).warnings =
      ["Could not fetch all profiles (API permissions likely restricted). Falling back to active profile only."] := by
  have hcall : make_api_call (ApiResult.httpErr 403 : ApiResult ProfilesPayload)
      "Full profile lookup" true = .error "403 Forbidden" := by
    simp [make_api_call]
  have hsub : containsSub "403 Forbidden".toList "403 Forbidden".toList = true := by decide
  unfold get_player_profiles
  rw [hcall]
  dsimp only
  rw [if_pos hsub]
  simp [profilesFallback, make_api_call]

/-! ## Claim theorems: Extraction Orchestrator -/

/-- C1 counterexample: in a run where all 25 fetches fail, the
orchestrator reports `success = 0, total = 25` and writes no file at
all — not the one mandatory full-raw-payload file the claim predicts
(`M + 1 = 1`).  This variant writes no such mandatory file. -/
theorem c1_counterexample :
    (extract_profile_data (fun _ => ApiResult.netErr "down") "u1" "idA" "out").success = 0
  ∧ (extract_profile_data (fun _ => ApiResult.netErr "down") "u1" "idA" "out").total = 25
  ∧ (extract_profile_data (fun _ => ApiResult.netErr "down") "u1" "idA" "out").files.length = 0
  ∧ (extract_profile_data (fun _ => ApiResult.netErr "down") "u1" "idA" "out").files.length ≠
      (extract_profile_data (fun _ => ApiResult.netErr "down") "u1" "idA" "out").success + 1 := by
  refine ⟨by decide, by decide, by decide, by decide⟩

/-- C1 (amended): over the fixed 25-entry plan, when exactly the
entries accepted by `fetchOk` succeed, the orchestrator reports
`success = M, total = 25` and the files written are exactly the `M`
successful entries' auxiliary files — `M` files in total, with no
additional full-payload file — regardless of which entries failed. -/
theorem c1_amended (fetch : String → ApiResult Jn) (uuid pid dir : String) :
    (extract_profile_data fetch uuid pid dir).total = 25
  ∧ (extract_profile_data fetch uuid pid dir).success =
      ((extraction_plan uuid pid).filter (fetchOk fetch)).length
  ∧ (extract_profile_data fetch uuid pid dir).files.map Prod.fst =
      ((extraction_plan uuid pid).filter (fetchOk fetch)).map (fun e => dir ++ "/" ++ e.file)
  ∧ (extract_profile_data fetch uuid pid dir).files.length =
      (extract_profile_data fetch uuid pid dir).success := by
  obtain ⟨h1, h2, h3, h4, _, _⟩ := extract_profile_data_spec fetch uuid pid dir
  exact ⟨h1, h2, h3, h4⟩

/-- C10: the extraction plan always has exactly 25 entries (16 data
categories plus 9 inventory categories), so every result satisfies
`total = 25`, `0 ≤ success ≤ total`, a non-zero divisor, and
`success_rate = round(100 · success / total, 1)` under Python's
round-half-even. -/
theorem c10_plan_invariants (fetch : String → ApiResult Jn) (uuid pid dir : String) :
    (extraction_plan uuid pid).length = 25
  ∧ (base_plan uuid pid).length = 16
  ∧ inventory_types.length = 9
  ∧ (extract_profile_data fetch uuid pid dir).total = 25
  ∧ (extract_profile_data fetch uuid pid dir).success ≤
      (extract_profile_data fetch uuid pid dir).total
  ∧ ((extract_profile_data fetch uuid pid dir).total : ℚ) ≠ 0
  ∧ (extract_profile_data fetch uuid pid dir).success_rate =
      pythonRound1 (100 * ((extract_profile_data fetch uuid pid dir).success : ℚ) /
        ((extract_profile_data fetch uuid pid dir).total : ℚ)) := by
  obtain ⟨hp1, hp2, hp3⟩ := extraction_plan_length uuid pid
  obtain ⟨h1, h2, _, _, _, h6⟩ := extract_profile_data_spec fetch uuid pid dir
  refine ⟨hp1, hp2, hp3, h1, ?_, ?_, ?_⟩
  · rw [h1, h2, ← hp1]
    exact List.length_filter_le _ _
  · rw [h1]
    norm_num
  · rw [h6]
    congr 1
    ring

/-- C7: for every plan entry whose fetch succeeds, `save_profile_data`
writes exactly the pretty-printed serialization of the received JSON
body, and parsing that text back recovers a value structurally equal to
the body — serialization changes formatting only, never data. -/
theorem c7_roundtrip (fetch : String → ApiResult Jn) (it : PlanEntry) (dir : String)
    (j : Jn) (hfo : fetch (BASE_URL ++ "/" ++ it.endpoint) = .ok j) :
    (save_profile_data fetch it dir).files = [(dir ++ "/" ++ it.file, jsonDumps j)]
  ∧ jsonLoads (jsonDumps j) = some j := by
  refine ⟨?_, jsonLoads_jsonDumps j⟩
  rw [(save_item_ok fetch it dir j hfo).1]

/-- C7 witness: a successful fetch of a nested document round-trips
through the written file. -/
theorem c7_witness :
    (fun _ => ApiResult.ok demoJson : String → ApiResult Jn)
        (BASE_URL ++ "/" ++ demoEntry.endpoint) = ApiResult.ok demoJson
  ∧ ((save_profile_data (fun _ => ApiResult.ok demoJson) demoEntry "out").files =
        [("out" ++ "/" ++ demoEntry.file, jsonDumps demoJson)]
      ∧ jsonLoads (jsonDumps demoJson) = some demoJson) :=
  ⟨rfl, c7_roundtrip (fun _ => ApiResult.ok demoJson) demoEntry "out" demoJson rfl⟩

/-! ## Claim theorems: the run as a whole -/

/-- C6: in a silent run that resolved its identity and its profile list
(and therefore created its output directory), auxiliary fetch failures
never abort: every one of the 25 plan entries is attempted, each
failure is recorded as exactly one warning (`warnings + successes =
25`), the files written are the successes, and the process still exits
with status zero — whatever the per-endpoint outcomes are. -/
theorem c6_partial_failure_exit_zero (env : Env) (u : String)
    (profileArg : Option String) (pinfo : UuidPayload) (ps : List ProfileRec) (d : String)
    (hu : u ≠ "")
    (hpre : env.prereqOk = true)
    (huuid : get_player_uuid env.uuidResp = some pinfo)
    (hlist : (get_player_profiles env.profResp env.statsResp).result = some ps)
    (hdir : env.dirResult = some d) :
    (main_model env (some u) profileArg true).exitCode = 0
  ∧ ∃ r, (main_model env (some u) profileArg true).extract = some r
      ∧ r.total = 25
      ∧ r.warnings.length + r.success = 25
      ∧ r.files.length = r.success := by
  have hne := lister_some_ne_nil env.profResp env.statsResp ps hlist
  have hempty : ps.isEmpty = false := by
    cases ps with
    | nil => exact absurd rfl hne
    | cons a l => rfl
  have ht : usernameTruthy (some u) = true := by
    simp [usernameTruthy, hu]
  have hsel := select_silent_isSome ps (profileArg.map String.toList) env.inputs hne
  obtain ⟨sel, hselEq⟩ := Option.isSome_iff_exists.mp hsel
  obtain ⟨e1, _, _, e4, e5, _⟩ :=
    extract_profile_data_spec env.fetch (pinfo.uuid.getD "") (String.mk sel.profile_id) d
  unfold main_model
  rw [hpre]
  simp only [ht, if_true, huuid, hlist, hempty, hselEq, hdir]
  simp only [Bool.false_eq_true, if_false, Bool.true_eq_false, false_and, and_false]
  exact ⟨trivial, _, rfl, e1, e5, e4⟩

/-- C6 witness: a concrete silent run in which exactly one of the 25
auxiliary endpoints fails with a server error still exits 0 with all
entries accounted for. -/
theorem c6_witness :
    ("Notch" : String) ≠ ""
  ∧ c6Env.prereqOk = true
  ∧ get_player_uuid c6Env.uuidResp = some { uuid := some "u1", username := "Notch" }
  ∧ (get_player_profiles c6Env.profResp c6Env.statsResp).result =
      some [{ profile_id := "idA".toList, profile_cute_name := "Apple".toList
              selected := false }]
  ∧ c6Env.dirResult = some "out"
  ∧ ((main_model c6Env (some "Notch") none true).exitCode = 0
      ∧ ∃ r, (main_model c6Env (some "Notch") none true).extract = some r
          ∧ r.total = 25
          ∧ r.warnings.length + r.success = 25
          ∧ r.files.length = r.success) :=
  ⟨by decide, rfl, rfl, by decide,
    rfl,
    c6_partial_failure_exit_zero c6Env "Notch" none
      { uuid := some "u1", username := "Notch" }
      [{ profile_id := "idA".toList, profile_cute_name := "Apple".toList
         selected := false }]
      "out" (by decide) rfl rfl (by decide) rfl⟩

end SBE
